import Mathlib

/-!
Shallow embedding of the ParfumFormula automation pipeline
(`src/automation/enrichment.py`, `src/automation/db_adapter.py`,
`src/automation/ifra_sync.py`) and proofs about the claims of its
design specification.

Modelling conventions:
* Python `None` / `str` / `int` / `float` values flowing through the
  upsert path are modelled by the inductive type `PyVal`; floats are
  modelled as rationals (the pipeline compares them only against the
  literal `100.0`, which is exact in every model).
* An ORM row (`models.Ingredient`) is modelled as an association list of
  attribute names and values (`StoredRecord`); `hasattr`/`getattr`/
  `setattr` act on that list.  `setattr` is only reached under a
  `hasattr` guard in the source, so its behaviour on a missing key is
  irrelevant; the model leaves the record unchanged there.
* Fallible calls (the two scrapers, the database session) are modelled
  with `Except String`, the string being Python's `str(e)` for the
  raised exception.
-/

/-- A Python runtime value as it occurs on the upsert path:
`None`, a string, an int, or a float (modelled as a rational). -/
inductive PyVal where
  | none
  | str (s : String)
  | int (n : Int)
  | float (q : ℚ)
deriving DecidableEq, Repr

/-- The `is_empty` test of `DatabaseAdapter.upsert_ingredient`
(db_adapter.py lines 213-217):
`current is None or current == "" or (isinstance(current, float) and current == 100.0)`.
Python's `==` between an int or float and `""` is `False`, and an `int`
is not an instance of `float`, so only the three listed shapes count. -/
def isEmptyVal : PyVal → Bool
  | PyVal.none => true
  | PyVal.str s => s == ""
  | PyVal.int _ => false
  | PyVal.float q => q == 100

/-- An ORM row: a fixed set of attributes with their current values. -/
structure StoredRecord where
  attrs : List (String × PyVal)
deriving DecidableEq, Repr

/-- Attribute lookup on the underlying association list. -/
def lookupAttr : List (String × PyVal) → String → Option PyVal
  | [], _ => Option.none
  | (k0, v0) :: rest, k => if k0 = k then some v0 else lookupAttr rest k

/-- Python `hasattr(existing, key)` for the modelled row. -/
def hasattrB (r : StoredRecord) (k : String) : Bool :=
  (lookupAttr r.attrs k).isSome

/-- Python `getattr(existing, key)`; only consulted under `hasattr`. -/
def getattrV (r : StoredRecord) (k : String) : PyVal :=
  (lookupAttr r.attrs k).getD PyVal.none

/-- Replace the value of attribute `k` in the association list. -/
def setAttrList : List (String × PyVal) → String → PyVal → List (String × PyVal)
  | [], _, _ => []
  | (k0, v0) :: rest, k, v =>
      if k0 = k then (k0, v) :: setAttrList rest k v
      else (k0, v0) :: setAttrList rest k v

/-- Python `setattr(existing, key, value)` for the modelled row. -/
def setattrV (r : StoredRecord) (k : String) (v : PyVal) : StoredRecord :=
  ⟨setAttrList r.attrs k v⟩

/-- The protected fields skipped by the upsert update loop
(db_adapter.py line 203). -/
def protectedFields : List String := ["id", "name", "owner_id", "created_at"]

/-- The field-update loop of `DatabaseAdapter.upsert_ingredient`
(db_adapter.py lines 200-225), run when an existing row was found.
Iterates over the incoming dict in order; skips protected fields and
fields absent from the row; in `fill_missing_only` mode writes a field
only when the current value `is_empty` and the incoming value is not
`None`, otherwise writes whenever the incoming value is not `None`.
Returns the updated row together with `updated_fields` in append order. -/
def updateFields (r : StoredRecord) (d : List (String × PyVal)) (fillMissingOnly : Bool) :
    StoredRecord × List String :=
  match d with
  | [] => (r, [])
  | (k, v) :: rest =>
    if k ∈ protectedFields then
      updateFields r rest fillMissingOnly
    else if hasattrB r k = false then
      updateFields r rest fillMissingOnly
    else if fillMissingOnly then
      if isEmptyVal (getattrV r k) = true ∧ v ≠ PyVal.none then
        let u := updateFields (setattrV r k v) rest fillMissingOnly
        (u.1, k :: u.2)
      else
        updateFields r rest fillMissingOnly
    else
      if v ≠ PyVal.none then
        let u := updateFields (setattrV r k v) rest fillMissingOnly
        (u.1, k :: u.2)
      else
        updateFields r rest fillMissingOnly

/-! ### Kernel-friendly string primitives

The corresponding core functions (`String.toLower`, `String.trim`, …)
are defined by well-founded recursion over byte positions and do not
reduce definitionally, so the embedding uses structurally recursive
equivalents over the character list.  They agree with Python's `str`
methods on ASCII data, which is all the repository's tables and data
paths carry. -/

/-- Python `str.lower()` (ASCII). -/
def pyLower (s : String) : String := ⟨s.data.map Char.toLower⟩

/-- Python `str.upper()` (ASCII). -/
def pyUpper (s : String) : String := ⟨s.data.map Char.toUpper⟩

/-- Strip leading and trailing whitespace from a character list. -/
def pyStripList (l : List Char) : List Char :=
  ((l.dropWhile Char.isWhitespace).reverse.dropWhile Char.isWhitespace).reverse

/-- Python `str.strip()`. -/
def pyStrip (s : String) : String := ⟨pyStripList s.data⟩

/-- Python `s.endswith(suf)`. -/
def pyEndsWith (s suf : String) : Bool := List.isSuffixOf suf.data s.data

/-- Python `s.startswith(pat)`. -/
def pyStartsWith (s pat : String) : Bool := List.isPrefixOf pat.data s.data

/-- Python `s[:-n]` for `0 < n ≤ len(s)`: drop the last `n` characters. -/
def pyDropRight (s : String) (n : ℕ) : String := ⟨s.data.take (s.data.length - n)⟩

/-- Substring containment on character lists (`pat in s` in Python). -/
def listContainsSub : List Char → List Char → Bool
  | [], pat => pat.isEmpty
  | c :: rest, pat => List.isPrefixOf pat (c :: rest) || listContainsSub rest pat

/-- Python `s.replace(str(c), "")`: remove every occurrence of a
single character (the source only ever removes `"%"`). -/
def pyRemoveAll (s : String) (c : Char) : String :=
  ⟨s.data.filter (fun x => x != c)⟩


/-! ### Scraper data shapes (scraper.py lines 40-76) -/

/-- `IngredientProfile` dataclass: data scraped from TGSC. -/
structure IngredientProfile where
  name : String
  cas : Option String := Option.none
  odor_description : Option String := Option.none
  odor_family : Option String := Option.none
  odor_strength : Option String := Option.none
  appearance : Option String := Option.none
  flash_point : Option String := Option.none
  specific_gravity : Option String := Option.none
  boiling_point : Option String := Option.none
  molecular_formula : Option String := Option.none
  molecular_weight : Option String := Option.none
  tenacity : Option String := Option.none
  logp : Option String := Option.none
  soluble : Option String := Option.none
  shelf_life : Option String := Option.none
  einecs : Option String := Option.none
  reach : Option String := Option.none
  synonyms : List String := []
  uses : List String := []
  source : String := "unknown"
deriving DecidableEq, Repr

/-- `PubChemData` dataclass: data from the PubChem API. -/
structure PubChemData where
  cid : Int
  name : String
  cas : Option String := Option.none
  molecular_formula : Option String := Option.none
  molecular_weight : Option String := Option.none
  iupac_name : Option String := Option.none
  synonyms : List String := []
deriving DecidableEq, Repr

/-- `MergedIngredientData` dataclass (enrichment.py lines 33-49). -/
structure MergedIngredientData where
  name : String
  cas : Option String := Option.none
  cid : Option Int := Option.none
  chemical_name : Option String := Option.none
  formula : Option String := Option.none
  molecularWeight : Option String := Option.none
  profile : Option String := Option.none
  type : Option String := Option.none
  strength : Option String := Option.none
  tenacity : Option String := Option.none
  appearance : Option String := Option.none
  flash_point : Option String := Option.none
  synonyms : List String := []
  sources : List String := []
deriving DecidableEq, Repr

/-! ### Name normalisation (enrichment.py lines 72-191) -/

/-- The `INGREDIENT_ALIASES` dict in its source order; a Python dict
iterates in insertion order. -/
def INGREDIENT_ALIASES : List (String × List String) :=
  [("bergamot", ["bergamot oil", "bergamot essential oil", "citrus bergamia"]),
   ("lavender", ["lavender oil", "lavandula angustifolia", "lavender essential oil"]),
   ("rose", ["rose oil", "rosa damascena", "rose absolute", "rose otto"]),
   ("jasmine", ["jasmine absolute", "jasminum grandiflorum", "jasmine oil"]),
   ("sandalwood", ["sandalwood oil", "santalum album", "east indian sandalwood"]),
   ("vanilla", ["vanilla absolute", "vanillin", "vanilla extract"]),
   ("musk", ["musk ketone", "muscone", "white musk"]),
   ("amber", ["ambergris", "amber accord", "labdanum"]),
   ("patchouli", ["patchouli oil", "pogostemon cablin"]),
   ("vetiver", ["vetiver oil", "vetiveria zizanioides"]),
   ("cedarwood", ["cedarwood oil", "cedrus atlantica", "virginia cedar"]),
   ("lemon", ["lemon oil", "citrus limon", "lemon essential oil"]),
   ("orange", ["orange oil", "citrus sinensis", "sweet orange oil"]),
   ("ylang ylang", ["ylang ylang oil", "cananga odorata"]),
   ("geranium", ["geranium oil", "pelargonium graveolens"]),
   ("frankincense", ["frankincense oil", "boswellia sacra", "olibanum"]),
   ("myrrh", ["myrrh oil", "commiphora myrrha"]),
   ("benzoin", ["benzoin resinoid", "styrax benzoin"]),
   ("tonka", ["tonka bean absolute", "dipteryx odorata", "coumarin"]),
   ("oud", ["oud oil", "agarwood", "aquilaria"])]

/-- `suffixes_to_remove`, in source order (enrichment.py lines 136-143). -/
def suffixesToRemove : List String :=
  [" essential oil", " absolute", " resinoid", " concrète", " co2 extract", " oil"]

/-- Python `base_name in INGREDIENT_ALIASES` / `INGREDIENT_ALIASES[base_name]`. -/
def aliasEntryFor (base : String) : Option (List String) :=
  (INGREDIENT_ALIASES.find? (fun p => p.1 == base)).map Prod.snd

/-- The alias scan of `normalize_ingredient_name` (lines 154-157) and of
`get_search_variants` (lines 177-180): first dict entry whose key equals
the lowercased name or whose alias list contains it case-insensitively. -/
def aliasScanFind (nameLower : String) : Option (List String) :=
  (INGREDIENT_ALIASES.find? (fun p =>
      nameLower == p.1 || (p.2.map pyLower).contains nameLower)).map Prod.snd

/-- `normalize_ingredient_name` (enrichment.py lines 120-159).  Note the
control flow of the source: on the first matching suffix, if the
stripped base is an alias key the preferred alias is returned, otherwise
the suffix loop `break`s; afterwards the full lowercased name is checked
against the alias table; if nothing matches, the ORIGINAL name is
returned merely `.strip()`ped (not lowercased, suffix kept). -/
def normalize_ingredient_name (name : String) : String :=
  let normalized := pyLower (pyStrip name)
  match suffixesToRemove.find? (fun suf => pyEndsWith normalized suf) with
  | some suf =>
    let base_name := pyStrip (pyDropRight normalized suf.length)
    (match aliasEntryFor base_name with
     | some aliases => aliases.headD ""
     | Option.none =>
       match aliasScanFind normalized with
       | some aliases => aliases.headD ""
       | Option.none => pyStrip name)
  | Option.none =>
    match aliasScanFind normalized with
    | some aliases => aliases.headD ""
    | Option.none => pyStrip name

/-- The order-preserving, case-insensitive deduplication loop of
`get_search_variants` (lines 183-189); `seen` holds lowercased strings. -/
def dedupCaseInsensitiveAux : List String → List String → List String
  | _, [] => []
  | seen, v :: rest =>
    if seen.contains (pyLower v) then dedupCaseInsensitiveAux seen rest
    else v :: dedupCaseInsensitiveAux (pyLower v :: seen) rest

/-- `get_search_variants` (enrichment.py lines 162-191). -/
def get_search_variants (name : String) : List String :=
  let normalized := normalize_ingredient_name name
  let variants := [normalized]
  let variants := if pyStrip name ≠ normalized then variants ++ [pyStrip name] else variants
  let name_lower := pyLower (pyStrip name)
  let variants :=
    match INGREDIENT_ALIASES.find? (fun p =>
        name_lower == p.1 || (p.2.map pyLower).contains name_lower) with
    | some p => variants ++ p.2
    | Option.none => variants
  (dedupCaseInsensitiveAux [] variants).take 5

/-! ### Type and tenacity inference (enrichment.py lines 194-273) -/

/-- Python `pat in s` substring containment; every pattern used by the
source is non-empty, where Python and this model agree. -/
def strContains (s pat : String) : Bool := listContainsSub s.data pat.data

/-- Python truthiness of an `Optional[str]`. -/
def optTruthy : Option String → Bool
  | some s => !(s == "")
  | Option.none => false

/-- `infer_ingredient_type` (enrichment.py lines 194-233). -/
def infer_ingredient_type (name : String) (profile : Option String) : Option String :=
  let name_lower := pyLower name
  let profile_lower := pyLower (profile.getD "")
  if ["essential oil", " eo ", "oil of"].any (strContains name_lower) then some "EO"
  else if ["absolute", "concrète", "resinoid"].any (strContains name_lower) then some "EO"
  else if ["alcohol", "ethanol", "dpg", "ipm"].any (strContains name_lower) then some "Solvent"
  else if ["fractionated coconut", "jojoba", "carrier"].any (strContains name_lower) then
    some "Carrier"
  else if ["musk", "aldehyde", "ketone", "ester", "acetate", "ionone", "coumarin",
      "vanillin", "heliotropin"].any (strContains name_lower) then some "AC"
  else if strContains profile_lower "synthetic" || strContains profile_lower "aroma chemical" then
    some "AC"
  else if strContains profile_lower "natural" || strContains profile_lower "botanical" then
    some "EO"
  else Option.none

/-- `infer_tenacity` (enrichment.py lines 236-273). -/
def infer_tenacity (name : String) (profile : Option String) : Option String :=
  let name_lower := pyLower name
  let _profile_lower := pyLower (profile.getD "")
  if ["musk", "amber", "sandalwood", "vetiver", "patchouli", "oud", "benzoin",
      "vanilla", "tonka", "labdanum", "cedarwood", "oak", "leather"].any
      (strContains name_lower) then some "24+ hours"
  else if ["lemon", "bergamot", "grapefruit", "mandarin", "lime", "eucalyptus",
      "mint", "basil"].any (strContains name_lower) then some "2-4 hours"
  else if ["rose", "jasmine", "ylang", "geranium", "lavender", "iris", "violet"].any
      (strContains name_lower) then some "6-12 hours"
  else Option.none

/-! ### The merge engine (enrichment.py lines 280-367) -/

/-- The Python idiom `if a and a.f: x = a.f` — keep an optional string
only when it is truthy. -/
def keepTruthy (x : Option String) : Option String :=
  if optTruthy x then x else Option.none

/-- The Python idiom `if a and a.f: x = a.f; elif b and b.g: x = b.g`. -/
def firstTruthy (x y : Option String) : Option String :=
  if optTruthy x then x else if optTruthy y then y else Option.none

/-- `merge_data_sources` (enrichment.py lines 280-367).  The guards
`if not merged.type` / `if not merged.tenacity` always fire because
neither field has been assigned earlier in the function.  The
`list(set(...))` over synonyms has implementation-defined order in
Python; it is modelled as an order-normalised deduplication
(`List.dedup`), which is exact about membership, duplicate-freeness and
the cap but fixes an arbitrary order. -/
def merge_data_sources (name : String) (tgsc_data : Option IngredientProfile)
    (pubchem_data : Option PubChemData) : MergedIngredientData :=
  let sources :=
    (if tgsc_data.isSome then ["TGSC"] else []) ++
    (if pubchem_data.isSome then ["PubChem"] else [])
  let cas := firstTruthy (tgsc_data.bind IngredientProfile.cas)
    (pubchem_data.bind PubChemData.cas)
  let cid := pubchem_data.map PubChemData.cid
  let chemical_name := keepTruthy (pubchem_data.bind PubChemData.iupac_name)
  let formula := firstTruthy (pubchem_data.bind PubChemData.molecular_formula)
    (tgsc_data.bind IngredientProfile.molecular_formula)
  let molecularWeight := firstTruthy (pubchem_data.bind PubChemData.molecular_weight)
    (tgsc_data.bind IngredientProfile.molecular_weight)
  let profile := keepTruthy (tgsc_data.bind IngredientProfile.odor_description)
  let strength := keepTruthy (tgsc_data.bind IngredientProfile.odor_strength)
  let appearance := keepTruthy (tgsc_data.bind IngredientProfile.appearance)
  let flash_point := keepTruthy (tgsc_data.bind IngredientProfile.flash_point)
  let type := infer_ingredient_type name profile
  let tenacity := infer_tenacity name profile
  let synonyms :=
    (((tgsc_data.map IngredientProfile.synonyms).getD []) ++
     ((pubchem_data.map PubChemData.synonyms).getD [])).dedup.take 50
  { name := name, cas := cas, cid := cid, chemical_name := chemical_name,
    formula := formula, molecularWeight := molecularWeight, profile := profile,
    type := type, strength := strength, tenacity := tenacity,
    appearance := appearance, flash_point := flash_point,
    synonyms := synonyms, sources := sources }

/-- The fixed field list of `MergedIngredientData.to_dict`
(enrichment.py lines 51-64), in source order, with each field's
accessor; `name` is a plain `str` and is always present, every other
field is included exactly when it is not `None`. -/
def mergedFieldGetters : List (String × (MergedIngredientData → Option PyVal)) :=
  [("name", fun m => some (PyVal.str m.name)),
   ("cas", fun m => m.cas.map PyVal.str),
   ("cid", fun m => m.cid.map PyVal.int),
   ("chemical_name", fun m => m.chemical_name.map PyVal.str),
   ("formula", fun m => m.formula.map PyVal.str),
   ("molecularWeight", fun m => m.molecularWeight.map PyVal.str),
   ("profile", fun m => m.profile.map PyVal.str),
   ("type", fun m => m.type.map PyVal.str),
   ("strength", fun m => m.strength.map PyVal.str),
   ("tenacity", fun m => m.tenacity.map PyVal.str),
   ("appearance", fun m => m.appearance.map PyVal.str),
   ("flash_point", fun m => m.flash_point.map PyVal.str)]

/-- `MergedIngredientData.to_dict` (enrichment.py lines 51-64):
the dictionary passed to `upsert_ingredient`, as an ordered
association list with unique keys. -/
def MergedIngredientData.to_dict (m : MergedIngredientData) : List (String × PyVal) :=
  mergedFieldGetters.filterMap (fun p => (p.2 m).map (fun v => (p.1, v)))

/-! ### IFRA percentage parsing (ifra_sync.py lines 159-185) -/

/-- Digit test for the float-literal model. -/
def isDigitCh (c : Char) : Bool := c.isDigit

/-- Value of a digit string. -/
def digitsVal (ds : List Char) : ℕ :=
  ds.foldl (fun a c => 10 * a + (c.toNat - 48)) 0

/-- Strip an optional leading sign, returning the sign factor. -/
def splitSign : List Char → Int × List Char
  | [] => (1, [])
  | c :: r => if c = '+' then (1, r) else if c = '-' then (-1, r) else (1, c :: r)

/-- Exponent suffix of a float literal: empty, or `e`/`E` with an
optional sign and a non-empty digit string. -/
def parseExpPart : List Char → Option Int
  | [] => some 0
  | c :: r =>
    if c = 'e' ∨ c = 'E' then
      let sr := splitSign r
      let ds := sr.2.takeWhile isDigitCh
      let rest := sr.2.dropWhile isDigitCh
      if ds ≠ [] ∧ rest = [] then some (sr.1 * (digitsVal ds : Int)) else Option.none
    else Option.none

/-- Model of Python `float(s)` on finite decimal literals: optional
sign, digits with at most one dot (at least one digit), optional
exponent.  `inf`/`nan` and underscore digit separators are accepted by
Python's `float` but are outside the scope of this rational-valued
model; no value on the repository's data path uses them. -/
def parsePyFloat (s : String) : Option ℚ :=
  let sr := splitSign s.toList
  let ip := sr.2.takeWhile isDigitCh
  let rest1 := sr.2.dropWhile isDigitCh
  match rest1 with
  | '.' :: r2 =>
    let fp := r2.takeWhile isDigitCh
    let rest2 := r2.dropWhile isDigitCh
    if ip.isEmpty ∧ fp.isEmpty then Option.none
    else
      match parseExpPart rest2 with
      | some e => some (mkRat
          (sr.1 * Int.ofNat ((digitsVal ip * Nat.pow 10 fp.length + digitsVal fp)
            * Nat.pow 10 e.toNat))
          (Nat.pow 10 (fp.length + (-e).toNat)))
      | Option.none => Option.none
  | other =>
    if ip.isEmpty then Option.none
    else
      match parseExpPart other with
      | some e => some (mkRat (sr.1 * Int.ofNat (digitsVal ip * Nat.pow 10 e.toNat))
          (Nat.pow 10 (-e).toNat))
      | Option.none => Option.none

/-- `_parse_percentage` (ifra_sync.py lines 159-185).  Note the
prohibition test of the source: `value.startswith("P") or "PROHIBIT" in
value`, applied to the trimmed, upper-cased value — a *starts-with* on
`"P"`, not a containment. -/
def _parse_percentage (value : String) : ℚ :=
  if value = "" ∨ pyStrip value ∈ ["-", "N/A", "NR", ""] then 100
  else
    let v := pyUpper (pyStrip value)
    if pyStartsWith v "P" ∨ strContains v "PROHIBIT" then 0
    else
      match parsePyFloat (pyStrip (pyRemoveAll v (Char.ofNat 37))) with
      | some q => q
      | Option.none => 100

/-! ### Database adapter (db_adapter.py) -/

/-- A `synonyms`-table row (models.py `Synonym`), the fields the
adapter writes. -/
structure SynonymRow where
  ing : String
  synonym : String
  source : Option String
  cid : Option Int
  owner_id : String
deriving DecidableEq, Repr

/-- The store: the ingredients table and the synonyms table, in
insertion order. -/
structure DB where
  ingredients : List StoredRecord
  synonyms : List SynonymRow
deriving DecidableEq, Repr

/-- SQL `name ILIKE pattern` as issued by the adapter: the pattern is a
plain name without wildcards on this code path, so it is
case-insensitive equality. -/
def ilikeEq (a b : String) : Bool := pyLower a == pyLower b

/-- String content of a `PyVal`; `ingredient_data.get("name", "")`
always yields a `str` on this code path. -/
def pyValStr : PyVal → String
  | PyVal.str s => s
  | _ => ""

/-- Dict read `d.get(k)` on the ordered association list. -/
def dictGet (d : List (String × PyVal)) (k : String) : PyVal :=
  (lookupAttr d k).getD PyVal.none

/-- Python dict assignment `d[k] = v`: overwrite in place or append. -/
def setDictKey (d : List (String × PyVal)) (k : String) (v : PyVal) :
    List (String × PyVal) :=
  if (lookupAttr d k).isSome then setAttrList d k v else d ++ [(k, v)]

/-- The `existing` lookup of `upsert_ingredient` (db_adapter.py lines
193-196): the first ingredient row whose `name` matches
case-insensitively and whose `owner_id` equals the owner, with its
position. -/
def findIngredientAux (name owner : String) :
    ℕ → List StoredRecord → Option (ℕ × StoredRecord)
  | _, [] => Option.none
  | i, r :: rest =>
    if ilikeEq (pyValStr (getattrV r "name")) name
        ∧ getattrV r "owner_id" = PyVal.str owner then some (i, r)
    else findIngredientAux name owner (i + 1) rest

/-- The `ingredients` table columns (models.py lines 39-106) with the
value a freshly inserted row carries when the column is not supplied:
nullable columns `None`, int columns their declared defaults, the 18
category columns the float default `100.0`.  `id` and the two
timestamps are server-generated and modelled as `None`; no claim
depends on them. -/
def ingredientSchemaDefaults : List (String × PyVal) :=
  [("id", PyVal.none), ("name", PyVal.str ""), ("INCI", PyVal.none),
   ("type", PyVal.none), ("strength", PyVal.none), ("category", PyVal.int 1),
   ("purity", PyVal.none), ("cas", PyVal.none), ("einecs", PyVal.none),
   ("reach", PyVal.none), ("FEMA", PyVal.none), ("tenacity", PyVal.none),
   ("chemical_name", PyVal.none), ("formula", PyVal.none),
   ("flash_point", PyVal.none), ("appearance", PyVal.none),
   ("rdi", PyVal.int 0), ("notes", PyVal.none), ("profile", PyVal.none),
   ("solvent", PyVal.none), ("allergen", PyVal.none),
   ("flavor_use", PyVal.none), ("soluble", PyVal.none), ("logp", PyVal.none),
   ("cat1", PyVal.float 100), ("cat2", PyVal.float 100),
   ("cat3", PyVal.float 100), ("cat4", PyVal.float 100),
   ("cat5A", PyVal.float 100), ("cat5B", PyVal.float 100),
   ("cat5C", PyVal.float 100), ("cat5D", PyVal.float 100),
   ("cat6", PyVal.float 100), ("cat7A", PyVal.float 100),
   ("cat7B", PyVal.float 100), ("cat8", PyVal.float 100),
   ("cat9", PyVal.float 100), ("cat10A", PyVal.float 100),
   ("cat10B", PyVal.float 100), ("cat11A", PyVal.float 100),
   ("cat11B", PyVal.float 100), ("cat12", PyVal.float 100),
   ("impact_top", PyVal.none), ("impact_heart", PyVal.none),
   ("impact_base", PyVal.none), ("usage_type", PyVal.none),
   ("noUsageLimit", PyVal.int 0), ("byPassIFRA", PyVal.int 0),
   ("isPrivate", PyVal.int 0), ("molecularWeight", PyVal.none),
   ("physical_state", PyVal.int 1), ("cid", PyVal.none),
   ("shelf_life", PyVal.int 0), ("created_at", PyVal.none),
   ("updated_at", PyVal.none), ("owner_id", PyVal.str "")]

/-- `DatabaseAdapter.upsert_ingredient` (db_adapter.py lines 167-246),
returning `(row, was_created)` and the new store, or the message of the
raised `ValueError`.  The internal `updated_fields` list is logged but
NOT returned by the source; the update loop itself is `updateFields`. -/
def upsert_ingredient (ingredient_data : List (String × PyVal))
    (fill_missing_only : Bool) (owner : String) (db : DB) :
    Except String (StoredRecord × Bool × DB) :=
  let name := pyStrip (pyValStr (dictGet ingredient_data "name"))
  if name = "" then Except.error "Ingredient name is required"
  else
    match findIngredientAux name owner 0 db.ingredients with
    | some (i, existing) =>
      let u := updateFields existing ingredient_data fill_missing_only
      Except.ok (u.1, false, { db with ingredients := db.ingredients.set i u.1 })
    | Option.none =>
      let data2 := setDictKey ingredient_data "owner_id" (PyVal.str owner)
      let newRow : StoredRecord :=
        ⟨ingredientSchemaDefaults.map (fun p => (p.1, (lookupAttr data2 p.1).getD p.2))⟩
      Except.ok (newRow, true, { db with ingredients := db.ingredients ++ [newRow] })

/-- `DatabaseAdapter.add_synonym` (db_adapter.py lines 377-412):
idempotent append keyed on the `(ing, synonym, owner)` triple. -/
def add_synonym (ingredient_name syn : String) (source : Option String)
    (cid : Option Int) (owner : String) (db : DB) : DB :=
  if db.synonyms.any (fun row => row.ing == ingredient_name
      && row.synonym == syn && row.owner_id == owner) then db
  else { db with synonyms := db.synonyms ++
    [{ ing := ingredient_name, synonym := syn, source := source,
       cid := cid, owner_id := owner }] }

/-! ### The enrichment pipeline (enrichment.py lines 22-30, 374-475) -/

/-- `EnrichmentResult` dataclass (enrichment.py lines 22-30). -/
structure EnrichmentResult where
  ingredient_name : String
  success : Bool
  was_created : Bool := false
  updated_fields : List String := []
  error_message : Option String := Option.none
  sources_used : List String := []
deriving DecidableEq, Repr

/-- The two external search calls, as oracles.  `Except.error msg`
models the call raising an exception with `str(e) = msg`; PubChem's
`search_pubchem` catches only request/JSON/Key errors, so other
exceptions (e.g. an `IndexError` on an empty property table) do
propagate to the caller. -/
structure ScraperOracle where
  search_tgsc : String → Except String (Option IngredientProfile)
  search_pubchem : String → Except String (Option PubChemData)

/-- The `for variant in variants: data = search(variant); if data:
break` loops of `enrich_ingredient` (lines 419-430). -/
def searchLoop {α : Type} (oracle : String → Except String (Option α)) :
    List String → Except String (Option α)
  | [] => Except.ok Option.none
  | v :: rest =>
    match oracle v with
    | Except.error e => Except.error e
    | Except.ok (some d) => Except.ok (some d)
    | Except.ok Option.none => searchLoop oracle rest

/-- A single-quote character, used in the not-found message. -/
def sQuote : String := String.singleton (Char.ofNat 39)

/-- `enrich_ingredient` (enrichment.py lines 374-475).  The
`try/except Exception` wraps everything after the result object is
created, so a raising lookup or upsert is caught and recorded on the
partially-built result (`error_message = str(e)`, `success` stays
`False`); the store keeps the state from before the failing write (the
adapter session rolls back).  On the not-found path the function
returns before any store access. -/
def enrich_ingredient (name : String) (owner : String) (fill_missing_only : Bool)
    (scraper : ScraperOracle) (db : DB) : EnrichmentResult × DB :=
  let result0 : EnrichmentResult := { ingredient_name := name, success := false }
  let variants := get_search_variants name
  match searchLoop scraper.search_tgsc variants with
  | Except.error e => ({ result0 with error_message := some e }, db)
  | Except.ok tgsc_data =>
  match searchLoop scraper.search_pubchem variants with
  | Except.error e => ({ result0 with error_message := some e }, db)
  | Except.ok pubchem_data =>
  if tgsc_data.isNone ∧ pubchem_data.isNone then
    ({ result0 with
        error_message := some ("No data found for " ++ sQuote ++ name
          ++ sQuote ++ " in any source") }, db)
  else
    let merged := merge_data_sources name tgsc_data pubchem_data
    let result1 := { result0 with sources_used := merged.sources }
    let ingredient_data := merged.to_dict
    match upsert_ingredient ingredient_data fill_missing_only owner db with
    | Except.error e => ({ result1 with error_message := some e }, db)
    | Except.ok (_, was_created, db1) =>
      let result2 := { result1 with
        was_created := was_created
        updated_fields := ingredient_data.map Prod.fst }
      let db2 := (merged.synonyms.take 20).foldl
        (fun acc syn =>
          if pyLower syn ≠ pyLower name then
            add_synonym name syn (some (String.intercalate ", " merged.sources))
              merged.cid owner acc
          else acc) db1
      ({ result2 with success := true }, db2)


/-! ### Concrete example environments used in witnesses and
counterexamples -/

/-- A TGSC lavender profile as the fragrance source would return it. -/
def lavProfileEx : IngredientProfile :=
  { name := "lavender", cas := some "8000-28-0",
    odor_description := some "floral herbaceous" }

/-- Oracle: TGSC finds `lavProfileEx` for every variant, PubChem finds
nothing. -/
def lavOracleEx : ScraperOracle :=
  { search_tgsc := fun _ => Except.ok (some lavProfileEx),
    search_pubchem := fun _ => Except.ok Option.none }

/-- A stored Lavender row on which every field the merge would supply
is already populated with a non-empty, non-sentinel value. -/
def lavRecordEx : StoredRecord :=
  ⟨[("name", PyVal.str "Lavender"), ("owner_id", PyVal.str "o"),
    ("cas", PyVal.str "8000-28-0"), ("profile", PyVal.str "floral herbaceous"),
    ("tenacity", PyVal.str "24+ hours")]⟩

/-- A store holding exactly `lavRecordEx`. -/
def lavDBEx : DB := { ingredients := [lavRecordEx], synonyms := [] }

/-- The empty store. -/
def dbEmptyEx : DB := { ingredients := [], synonyms := [] }

/-- Oracle: both sources return no data for every query. -/
def noneOracleEx : ScraperOracle :=
  { search_tgsc := fun _ => Except.ok Option.none,
    search_pubchem := fun _ => Except.ok Option.none }

/-- Oracle: the TGSC lookup raises an exception with text "boom". -/
def raiseOracleEx : ScraperOracle :=
  { search_tgsc := fun _ => Except.error "boom",
    search_pubchem := fun _ => Except.ok Option.none }

/-- Oracle: the TGSC lookup raises an exception whose text is empty
(Python `str(Exception())` is `""`). -/
def emptyRaiseOracleEx : ScraperOracle :=
  { search_tgsc := fun _ => Except.error "",
    search_pubchem := fun _ => Except.ok Option.none }


/-! ### Basic lemmas about the attribute operations -/

theorem setAttrList_keys (l : List (String × PyVal)) (k : String) (v : PyVal) :
    (setAttrList l k v).map Prod.fst = l.map Prod.fst := by
  induction l with
  | nil => rfl
  | cons p rest ih =>
    obtain ⟨k0, v0⟩ := p
    by_cases h : k0 = k <;> simp [setAttrList, h, ih]

theorem lookupAttr_setAttrList_same (l : List (String × PyVal)) (k : String) (v : PyVal) :
    lookupAttr (setAttrList l k v) k = if (lookupAttr l k).isSome then some v else Option.none := by
  induction l with
  | nil => rfl
  | cons p rest ih =>
    obtain ⟨k0, v0⟩ := p
    by_cases h : k0 = k <;> simp [setAttrList, lookupAttr, h, ih]

theorem lookupAttr_setAttrList_other (l : List (String × PyVal)) (k k' : String) (v : PyVal)
    (hne : k ≠ k') : lookupAttr (setAttrList l k' v) k = lookupAttr l k := by
  induction l with
  | nil => rfl
  | cons p rest ih =>
    obtain ⟨k0, v0⟩ := p
    by_cases h : k0 = k'
    · subst h
      simp [setAttrList, lookupAttr, Ne.symm hne, ih]
    · by_cases h2 : k0 = k <;> simp [setAttrList, lookupAttr, h, h2, hne, ih]

theorem hasattr_setattr (r : StoredRecord) (k k' : String) (v : PyVal) :
    hasattrB (setattrV r k' v) k = hasattrB r k := by
  by_cases h : k = k'
  · subst h
    simp [hasattrB, setattrV, lookupAttr_setAttrList_same]
    by_cases h2 : (lookupAttr r.attrs k).isSome = true <;> simp [h2]
  · simp [hasattrB, setattrV, lookupAttr_setAttrList_other _ _ _ _ h]

theorem getattr_setattr_same (r : StoredRecord) (k : String) (v : PyVal)
    (h : hasattrB r k = true) : getattrV (setattrV r k v) k = v := by
  simp only [hasattrB] at h
  simp [getattrV, setattrV, lookupAttr_setAttrList_same, h]

theorem getattr_setattr_other (r : StoredRecord) (k k' : String) (v : PyVal)
    (hne : k ≠ k') : getattrV (setattrV r k' v) k = getattrV r k := by
  simp [getattrV, setattrV, lookupAttr_setAttrList_other _ _ _ _ hne]

/-! ### Structural lemmas about the update loop -/

theorem updateFields_hasattr (r : StoredRecord) (d : List (String × PyVal)) (f : Bool)
    (k : String) : hasattrB (updateFields r d f).1 k = hasattrB r k := by
  induction d generalizing r with
  | nil => rfl
  | cons p rest ih =>
    obtain ⟨k0, v0⟩ := p
    simp only [updateFields]
    by_cases h1 : k0 ∈ protectedFields
    · simp [h1, ih]
    · by_cases h2 : hasattrB r k0 = false
      · simp [h1, h2, ih]
      · by_cases hf : f
        · subst hf
          by_cases h3 : isEmptyVal (getattrV r k0) = true ∧ v0 ≠ PyVal.none
          · simp [h1, h2, h3, ih, hasattr_setattr]
          · simp [h1, h2, h3, ih]
        · simp only [Bool.not_eq_true] at hf
          subst hf
          by_cases h3 : v0 ≠ PyVal.none
          · simp [h1, h2, h3, ih, hasattr_setattr]
          · simp [h1, h2, h3, ih]

theorem updateFields_sub (r : StoredRecord) (d : List (String × PyVal)) (f : Bool)
    (k : String) (hk : k ∈ (updateFields r d f).2) : k ∈ d.map Prod.fst := by
  induction d generalizing r with
  | nil => simp [updateFields] at hk
  | cons p rest ih =>
    obtain ⟨k0, v0⟩ := p
    simp only [updateFields] at hk
    simp only [List.map_cons, List.mem_cons]
    split at hk
    · exact Or.inr (ih r hk)
    · split at hk
      · exact Or.inr (ih r hk)
      · split at hk
        · split at hk
          · rcases List.mem_cons.mp hk with h | h
            · exact Or.inl h
            · exact Or.inr (ih _ h)
          · exact Or.inr (ih r hk)
        · split at hk
          · rcases List.mem_cons.mp hk with h | h
            · exact Or.inl h
            · exact Or.inr (ih _ h)
          · exact Or.inr (ih r hk)

theorem updateFields_getattr_notmem (r : StoredRecord) (d : List (String × PyVal)) (f : Bool)
    (k : String) (hk : k ∉ d.map Prod.fst) :
    getattrV (updateFields r d f).1 k = getattrV r k := by
  induction d generalizing r with
  | nil => rfl
  | cons p rest ih =>
    obtain ⟨k0, v0⟩ := p
    simp only [List.map_cons, List.mem_cons] at hk
    push_neg at hk
    obtain ⟨hk0, hkrest⟩ := hk
    have hset : ∀ v, getattrV (setattrV r k0 v) k = getattrV r k :=
      fun v => getattr_setattr_other r k k0 v hk0
    simp only [updateFields]
    by_cases h1 : k0 ∈ protectedFields
    · simp [h1, ih _ hkrest]
    · by_cases h2 : hasattrB r k0 = false
      · simp [h1, h2, ih _ hkrest]
      · by_cases hf : f
        · subst hf
          by_cases h3 : isEmptyVal (getattrV r k0) = true ∧ v0 ≠ PyVal.none
          · simp [h1, h2, h3, ih _ hkrest, hset]
          · simp [h1, h2, h3, ih _ hkrest]
        · simp only [Bool.not_eq_true] at hf
          subst hf
          by_cases h3 : v0 ≠ PyVal.none
          · simp [h1, h2, h3, ih _ hkrest, hset]
          · simp [h1, h2, h3, ih _ hkrest]

theorem updateFields_cons_prot (r : StoredRecord) (k : String) (v : PyVal)
    (rest : List (String × PyVal)) (f : Bool) (h : k ∈ protectedFields) :
    updateFields r ((k, v) :: rest) f = updateFields r rest f := by
  simp [updateFields, h]

theorem updateFields_cons_noattr (r : StoredRecord) (k : String) (v : PyVal)
    (rest : List (String × PyVal)) (f : Bool) (h : hasattrB r k = false) :
    updateFields r ((k, v) :: rest) f = updateFields r rest f := by
  by_cases hp : k ∈ protectedFields <;> simp [updateFields, hp, h]

theorem updateFields_cons_write (r : StoredRecord) (k : String) (v : PyVal)
    (rest : List (String × PyVal)) (hp : k ∉ protectedFields)
    (ha : hasattrB r k = true)
    (hc : isEmptyVal (getattrV r k) = true ∧ v ≠ PyVal.none) :
    updateFields r ((k, v) :: rest) true =
      ((updateFields (setattrV r k v) rest true).1,
        k :: (updateFields (setattrV r k v) rest true).2) := by
  simp [updateFields, hp, ha, hc]

theorem updateFields_cons_skip (r : StoredRecord) (k : String) (v : PyVal)
    (rest : List (String × PyVal)) (hp : k ∉ protectedFields)
    (ha : hasattrB r k = true)
    (hc : ¬(isEmptyVal (getattrV r k) = true ∧ v ≠ PyVal.none)) :
    updateFields r ((k, v) :: rest) true = updateFields r rest true := by
  simp [updateFields, hp, ha, hc]

/-- Core characterisation of the fill-missing-only update loop: a
non-protected field `k` of the row, present in the incoming dict with
value `v`, is written exactly when `v` is not `None` and the current
value is empty; when written it afterwards holds `v`, otherwise it is
unchanged. -/
theorem fill_missing_char (r : StoredRecord) (d : List (String × PyVal))
    (hnd : (d.map Prod.fst).Nodup) (k : String) (v : PyVal)
    (hmem : (k, v) ∈ d) (hprot : k ∉ protectedFields) (hattr : hasattrB r k = true) :
    (k ∈ (updateFields r d true).2 ↔ (v ≠ PyVal.none ∧ isEmptyVal (getattrV r k) = true))
    ∧ (k ∈ (updateFields r d true).2 → getattrV (updateFields r d true).1 k = v)
    ∧ (k ∉ (updateFields r d true).2 → getattrV (updateFields r d true).1 k = getattrV r k) := by
  induction d generalizing r with
  | nil => cases hmem
  | cons p rest ih =>
    obtain ⟨k0, v0⟩ := p
    simp only [List.map_cons, List.nodup_cons] at hnd
    obtain ⟨hk0rest, hndrest⟩ := hnd
    rcases List.mem_cons.mp hmem with heq | hmemrest
    · injection heq with hk hv
      subst hk
      subst hv
      by_cases hc : isEmptyVal (getattrV r k) = true ∧ v ≠ PyVal.none
      · rw [updateFields_cons_write r k v rest hprot hattr hc]
        refine ⟨⟨fun _ => ⟨hc.2, hc.1⟩, fun _ => List.mem_cons_self _ _⟩, ?_, ?_⟩
        · intro _
          have hnotin : k ∉ rest.map Prod.fst := hk0rest
          rw [updateFields_getattr_notmem _ _ _ _ hnotin]
          exact getattr_setattr_same r k v hattr
        · intro hcontra
          exact absurd (List.mem_cons_self _ _) hcontra
      · rw [updateFields_cons_skip r k v rest hprot hattr hc]
        have hnotin : k ∉ (updateFields r rest true).2 :=
          fun hin => hk0rest (updateFields_sub r rest true k hin)
        refine ⟨⟨fun hin => absurd hin hnotin, fun hr => absurd ⟨hr.2, hr.1⟩ hc⟩, ?_, ?_⟩
        · intro hin
          exact absurd hin hnotin
        · intro _
          exact updateFields_getattr_notmem r rest true k hk0rest
    · have hkkeys : k ∈ rest.map Prod.fst := List.mem_map_of_mem Prod.fst hmemrest
      have hne : k ≠ k0 := fun h => hk0rest (h ▸ hkkeys)
      by_cases h1 : k0 ∈ protectedFields
      · rw [updateFields_cons_prot r k0 v0 rest true h1]
        exact ih r hndrest hmemrest hattr
      · by_cases h2 : hasattrB r k0 = false
        · rw [updateFields_cons_noattr r k0 v0 rest true h2]
          exact ih r hndrest hmemrest hattr
        · have h2' : hasattrB r k0 = true := by
            cases h : hasattrB r k0
            · exact absurd h h2
            · rfl
          by_cases hc : isEmptyVal (getattrV r k0) = true ∧ v0 ≠ PyVal.none
          · rw [updateFields_cons_write r k0 v0 rest h1 h2' hc]
            have hattr' : hasattrB (setattrV r k0 v0) k = true := by
              rw [hasattr_setattr]; exact hattr
            have hget : getattrV (setattrV r k0 v0) k = getattrV r k :=
              getattr_setattr_other r k k0 v0 hne
            obtain ⟨ihiff, ihval, ihsame⟩ := ih (setattrV r k0 v0) hndrest hmemrest hattr'
            rw [hget] at ihiff ihsame
            refine ⟨?_, ?_, ?_⟩
            · constructor
              · intro hin
                rcases List.mem_cons.mp hin with h | h
                · exact absurd h hne
                · exact ihiff.mp h
              · intro hr
                exact List.mem_cons_of_mem _ (ihiff.mpr hr)
            · intro hin
              rcases List.mem_cons.mp hin with h | h
              · exact absurd h hne
              · exact ihval h
            · intro hnin
              exact ihsame fun h => hnin (List.mem_cons_of_mem _ h)
          · rw [updateFields_cons_skip r k0 v0 rest h1 h2' hc]
            exact ih r hndrest hmemrest hattr

/-- A value that, once written, is no longer `is_empty`: not `None`,
not `""`, not the float sentinel `100.0`. -/
def solidVal (v : PyVal) : Prop := v ≠ PyVal.none ∧ isEmptyVal v = false

/-- Running the fill-missing-only update loop a second time with the
same incoming dict writes nothing, provided every non-protected
incoming value is solid (which holds for every dict produced by the
merge engine, see `merged_to_dict_solid`). -/
theorem updateFields_idem (r : StoredRecord) (d : List (String × PyVal))
    (hnd : (d.map Prod.fst).Nodup)
    (hsolid : ∀ kv ∈ d, kv.1 ∈ protectedFields ∨ solidVal kv.2) :
    updateFields (updateFields r d true).1 d true = ((updateFields r d true).1, []) := by
  induction d generalizing r with
  | nil => rfl
  | cons p rest ih =>
    obtain ⟨k0, v0⟩ := p
    simp only [List.map_cons, List.nodup_cons] at hnd
    obtain ⟨hk0rest, hndrest⟩ := hnd
    have hs0 := hsolid (k0, v0) (List.mem_cons_self _ _)
    have hsrest : ∀ kv ∈ rest, kv.1 ∈ protectedFields ∨ solidVal kv.2 :=
      fun kv h => hsolid kv (List.mem_cons_of_mem _ h)
    by_cases h1 : k0 ∈ protectedFields
    · rw [updateFields_cons_prot r k0 v0 rest true h1,
        updateFields_cons_prot _ k0 v0 rest true h1]
      exact ih _ hndrest hsrest
    · have hsol : solidVal v0 := hs0.resolve_left h1
      by_cases h2 : hasattrB r k0 = false
      · rw [updateFields_cons_noattr r k0 v0 rest true h2]
        have h2' : hasattrB (updateFields r rest true).1 k0 = false := by
          rw [updateFields_hasattr]; exact h2
        rw [updateFields_cons_noattr _ k0 v0 rest true h2']
        exact ih _ hndrest hsrest
      · have h2' : hasattrB r k0 = true := by
          cases h : hasattrB r k0
          · exact absurd h h2
          · rfl
        by_cases hc : isEmptyVal (getattrV r k0) = true ∧ v0 ≠ PyVal.none
        · rw [updateFields_cons_write r k0 v0 rest h1 h2' hc]
          have hattr1 : hasattrB (updateFields (setattrV r k0 v0) rest true).1 k0 = true := by
            rw [updateFields_hasattr, hasattr_setattr]; exact h2'
          have hget1 : getattrV (updateFields (setattrV r k0 v0) rest true).1 k0 = v0 := by
            rw [updateFields_getattr_notmem _ _ _ _ hk0rest]
            exact getattr_setattr_same r k0 v0 h2'
          have hc1 : ¬(isEmptyVal (getattrV (updateFields (setattrV r k0 v0) rest true).1 k0)
              = true ∧ v0 ≠ PyVal.none) := by
            rw [hget1, hsol.2]
            simp
          rw [updateFields_cons_skip _ k0 v0 rest h1 hattr1 hc1]
          exact ih _ hndrest hsrest
        · rw [updateFields_cons_skip r k0 v0 rest h1 h2' hc]
          have hattr1 : hasattrB (updateFields r rest true).1 k0 = true := by
            rw [updateFields_hasattr]; exact h2'
          have hget1 : getattrV (updateFields r rest true).1 k0 = getattrV r k0 :=
            updateFields_getattr_notmem r rest true k0 hk0rest
          have hc1 : ¬(isEmptyVal (getattrV (updateFields r rest true).1 k0)
              = true ∧ v0 ≠ PyVal.none) := by
            rw [hget1]; exact hc
          rw [updateFields_cons_skip _ k0 v0 rest h1 hattr1 hc1]
          exact ih _ hndrest hsrest


/-! ### Solidity of merged values -/

theorem solid_str (s : String) (h : s ≠ "") : solidVal (PyVal.str s) := by
  constructor
  · intro hc
    exact PyVal.noConfusion hc
  · simp [isEmptyVal, h]

theorem solid_int (n : Int) : solidVal (PyVal.int n) := by
  constructor
  · intro hc
    exact PyVal.noConfusion hc
  · rfl

theorem keepTruthy_ne_empty (x : Option String) (s : String)
    (h : keepTruthy x = some s) : s ≠ "" := by
  unfold keepTruthy at h
  split at h
  · next htr =>
    subst h
    simpa [optTruthy] using htr
  · cases h

theorem firstTruthy_ne_empty (x y : Option String) (s : String)
    (h : firstTruthy x y = some s) : s ≠ "" := by
  unfold firstTruthy at h
  split at h
  · next htr =>
    subst h
    simpa [optTruthy] using htr
  · split at h
    · next htr =>
      subst h
      simpa [optTruthy] using htr
    · cases h

theorem infer_type_ne_empty (name : String) (profile : Option String) (s : String)
    (h : infer_ingredient_type name profile = some s) : s ≠ "" := by
  simp only [infer_ingredient_type] at h
  split_ifs at h <;> simp_all <;> subst h <;> decide

theorem infer_tenacity_ne_empty (name : String) (profile : Option String) (s : String)
    (h : infer_tenacity name profile = some s) : s ≠ "" := by
  simp only [infer_tenacity] at h
  split_ifs at h <;> simp_all <;> subst h <;> decide

/-! ### The merged dict: unique keys and solid values -/

theorem merge_cas_eq (name : String) (t : Option IngredientProfile) (p : Option PubChemData) :
    (merge_data_sources name t p).cas
      = firstTruthy (t.bind IngredientProfile.cas) (p.bind PubChemData.cas) := rfl

theorem merge_synonyms_eq (name : String) (t : Option IngredientProfile)
    (p : Option PubChemData) :
    (merge_data_sources name t p).synonyms
      = (((t.map IngredientProfile.synonyms).getD []) ++
          ((p.map PubChemData.synonyms).getD [])).dedup.take 50 := rfl

theorem filterMapGetters_keys_sublist
    (l : List (String × (MergedIngredientData → Option PyVal))) (m : MergedIngredientData) :
    ((l.filterMap (fun p => (p.2 m).map (fun v => (p.1, v)))).map Prod.fst).Sublist
      (l.map Prod.fst) := by
  induction l with
  | nil => simp
  | cons p rest ih =>
    cases h : p.2 m with
    | none =>
      simp only [List.filterMap_cons, h, List.map_cons]
      exact ih.cons _
    | some v =>
      simp only [List.filterMap_cons, h, Option.map_some', List.map_cons]
      exact ih.cons₂ _

theorem to_dict_keys_nodup (m : MergedIngredientData) :
    (m.to_dict.map Prod.fst).Nodup := by
  have hsub := filterMapGetters_keys_sublist mergedFieldGetters m
  have hnd : (mergedFieldGetters.map Prod.fst).Nodup := by
    simp only [mergedFieldGetters, List.map_cons, List.map_nil]
    decide
  exact hnd.sublist hsub

theorem merged_to_dict_solid (name : String) (t : Option IngredientProfile)
    (p : Option PubChemData) :
    ∀ kv ∈ (merge_data_sources name t p).to_dict,
      kv.1 ∈ protectedFields ∨ solidVal kv.2 := by
  intro kv hkv
  unfold MergedIngredientData.to_dict at hkv
  rw [List.mem_filterMap] at hkv
  obtain ⟨a, ha, hmap⟩ := hkv
  rw [Option.map_eq_some'] at hmap
  obtain ⟨v, hv, hkv2⟩ := hmap
  subst hkv2
  simp only [mergedFieldGetters, List.mem_cons, List.not_mem_nil, or_false] at ha
  rcases ha with rfl | rfl | rfl | rfl | rfl | rfl | rfl | rfl | rfl | rfl | rfl | rfl
  · left
    simp [protectedFields]
  · right
    simp only at hv
    rw [Option.map_eq_some'] at hv
    obtain ⟨s, hs, rfl⟩ := hv
    rw [merge_cas_eq] at hs
    exact solid_str s (firstTruthy_ne_empty _ _ s hs)
  · right
    simp only at hv
    rw [Option.map_eq_some'] at hv
    obtain ⟨n, _, rfl⟩ := hv
    exact solid_int n
  · right
    simp only at hv
    rw [Option.map_eq_some'] at hv
    obtain ⟨s, hs, rfl⟩ := hv
    have : keepTruthy (p.bind PubChemData.iupac_name) = some s := hs
    exact solid_str s (keepTruthy_ne_empty _ s this)
  · right
    simp only at hv
    rw [Option.map_eq_some'] at hv
    obtain ⟨s, hs, rfl⟩ := hv
    have : firstTruthy (p.bind PubChemData.molecular_formula)
        (t.bind IngredientProfile.molecular_formula) = some s := hs
    exact solid_str s (firstTruthy_ne_empty _ _ s this)
  · right
    simp only at hv
    rw [Option.map_eq_some'] at hv
    obtain ⟨s, hs, rfl⟩ := hv
    have : firstTruthy (p.bind PubChemData.molecular_weight)
        (t.bind IngredientProfile.molecular_weight) = some s := hs
    exact solid_str s (firstTruthy_ne_empty _ _ s this)
  · right
    simp only at hv
    rw [Option.map_eq_some'] at hv
    obtain ⟨s, hs, rfl⟩ := hv
    have : keepTruthy (t.bind IngredientProfile.odor_description) = some s := hs
    exact solid_str s (keepTruthy_ne_empty _ s this)
  · right
    simp only at hv
    rw [Option.map_eq_some'] at hv
    obtain ⟨s, hs, rfl⟩ := hv
    have : infer_ingredient_type name
        (keepTruthy (t.bind IngredientProfile.odor_description)) = some s := hs
    exact solid_str s (infer_type_ne_empty _ _ s this)
  · right
    simp only at hv
    rw [Option.map_eq_some'] at hv
    obtain ⟨s, hs, rfl⟩ := hv
    have : keepTruthy (t.bind IngredientProfile.odor_strength) = some s := hs
    exact solid_str s (keepTruthy_ne_empty _ s this)
  · right
    simp only at hv
    rw [Option.map_eq_some'] at hv
    obtain ⟨s, hs, rfl⟩ := hv
    have : infer_tenacity name
        (keepTruthy (t.bind IngredientProfile.odor_description)) = some s := hs
    exact solid_str s (infer_tenacity_ne_empty _ _ s this)
  · right
    simp only at hv
    rw [Option.map_eq_some'] at hv
    obtain ⟨s, hs, rfl⟩ := hv
    have : keepTruthy (t.bind IngredientProfile.appearance) = some s := hs
    exact solid_str s (keepTruthy_ne_empty _ s this)
  · right
    simp only at hv
    rw [Option.map_eq_some'] at hv
    obtain ⟨s, hs, rfl⟩ := hv
    have : keepTruthy (t.bind IngredientProfile.flash_point) = some s := hs
    exact solid_str s (keepTruthy_ne_empty _ s this)

/-! ### Claim theorems -/

/-- C1: for every existing stored record and every incoming field that
is not protected (`id`, `name`, `owner_id`, `created_at`) and exists on
the record, a `fill_missing_only=True` upsert writes the field iff the
incoming value is not `None` and the current stored value is `None`,
`""`, or a float equal to `100.0`; a stored value that is none of
these is never altered, and a stored float `100.0` is overwritten by
any non-`None` incoming value. -/
theorem fill_missing_write_iff (r : StoredRecord) (d : List (String × PyVal))
    (hnd : (d.map Prod.fst).Nodup) (k : String) (v : PyVal)
    (hmem : (k, v) ∈ d) (hprot : k ∉ protectedFields) (hattr : hasattrB r k = true) :
    (k ∈ (updateFields r d true).2 ↔ (v ≠ PyVal.none ∧ isEmptyVal (getattrV r k) = true))
    ∧ (isEmptyVal (getattrV r k) = false →
        getattrV (updateFields r d true).1 k = getattrV r k)
    ∧ (getattrV r k = PyVal.float 100 → v ≠ PyVal.none →
        getattrV (updateFields r d true).1 k = v) := by
  obtain ⟨hiff, hval, hsame⟩ := fill_missing_char r d hnd k v hmem hprot hattr
  refine ⟨hiff, ?_, ?_⟩
  · intro hne
    apply hsame
    intro hin
    have h2 := (hiff.mp hin).2
    rw [hne] at h2
    cases h2
  · intro h100 hv
    apply hval
    refine hiff.mpr ⟨hv, ?_⟩
    rw [h100]
    decide

/-- Witness for `fill_missing_write_iff`: on a concrete record, the
category field stored as the sentinel `100.0` is reported written and
afterwards holds the differing incoming value `50.0`. -/
theorem fill_missing_write_iff_witness :
    ("cat1" ∈ (updateFields
        ⟨[("name", PyVal.str "X"), ("profile", PyVal.str "woody"),
          ("cat1", PyVal.float 100)]⟩
        [("cat1", PyVal.float 50), ("profile", PyVal.str "fresh")] true).2)
    ∧ getattrV (updateFields
        ⟨[("name", PyVal.str "X"), ("profile", PyVal.str "woody"),
          ("cat1", PyVal.float 100)]⟩
        [("cat1", PyVal.float 50), ("profile", PyVal.str "fresh")] true).1 "cat1"
      = PyVal.float 50 := by
  have h := fill_missing_write_iff
    ⟨[("name", PyVal.str "X"), ("profile", PyVal.str "woody"),
      ("cat1", PyVal.float 100)]⟩
    [("cat1", PyVal.float 50), ("profile", PyVal.str "fresh")]
    (by decide) "cat1" (PyVal.float 50) (by decide) (by decide) (by decide)
  exact ⟨h.1.mpr ⟨by decide, by decide⟩, h.2.2 (by decide) (by decide)⟩

/-- C2: enriching the same ingredient twice with
`fill_missing_only=True` and identical source data changes nothing the
second time: after the first upsert of the merged record, a second
upsert of the same merged record writes no field (`updated_fields` is
empty) and leaves the stored record unchanged. -/
theorem fill_missing_upsert_idempotent (r : StoredRecord) (name : String)
    (t : Option IngredientProfile) (p : Option PubChemData) :
    updateFields (updateFields r (merge_data_sources name t p).to_dict true).1
        (merge_data_sources name t p).to_dict true
      = ((updateFields r (merge_data_sources name t p).to_dict true).1, []) :=
  updateFields_idem r _ (to_dict_keys_nodup _) (merged_to_dict_solid name t p)

/-- C4: the merge engine is a pure function — equal inputs give equal
merged records — and its synonym list is duplicate-free, drawn from the
union of both sources' synonym lists, capped at 50, and exhaustive
whenever that union fits within the cap.  (Python's `list(set(...))`
iteration order is implementation-defined; the model fixes one order,
and the order-independent conjuncts carry the content.) -/
theorem merge_pure_deterministic (name : String) (t : Option IngredientProfile)
    (p : Option PubChemData) :
    (∀ t2 p2, t2 = t → p2 = p →
        merge_data_sources name t2 p2 = merge_data_sources name t p)
    ∧ (merge_data_sources name t p).synonyms.Nodup
    ∧ (merge_data_sources name t p).synonyms.length ≤ 50
    ∧ (∀ s ∈ (merge_data_sources name t p).synonyms,
        s ∈ ((t.map IngredientProfile.synonyms).getD [])
          ++ ((p.map PubChemData.synonyms).getD []))
    ∧ ((((t.map IngredientProfile.synonyms).getD [])
          ++ ((p.map PubChemData.synonyms).getD [])).length ≤ 50 →
        ∀ s ∈ ((t.map IngredientProfile.synonyms).getD [])
          ++ ((p.map PubChemData.synonyms).getD []),
          s ∈ (merge_data_sources name t p).synonyms) := by
  refine ⟨fun t2 p2 ht hp => by rw [ht, hp], ?_, ?_, ?_, ?_⟩
  · rw [merge_synonyms_eq]
    exact (List.nodup_dedup _).sublist (List.take_sublist _ _)
  · rw [merge_synonyms_eq]
    exact List.length_take_le _ _
  · intro s hs
    rw [merge_synonyms_eq] at hs
    exact List.mem_dedup.mp (List.mem_of_mem_take hs)
  · intro hlen s hs
    rw [merge_synonyms_eq]
    have hdlen : (((t.map IngredientProfile.synonyms).getD [])
        ++ ((p.map PubChemData.synonyms).getD [])).dedup.length ≤ 50 :=
      le_trans (List.dedup_sublist _).length_le hlen
    rw [List.take_of_length_le hdlen]
    exact List.mem_dedup.mpr hs

/-- Witness for `merge_pure_deterministic`: the hypothesis-bearing
conjuncts applied at concrete profiles — determinism at equal inputs
and exhaustiveness of the deduplicated synonym union under the cap. -/
theorem merge_pure_deterministic_witness :
    merge_data_sources "x"
        (some { name := "x", synonyms := ["s1", "s2", "s1"] })
        (some { cid := 1, name := "y", synonyms := ["s2", "s3"] })
      = merge_data_sources "x"
        (some { name := "x", synonyms := ["s1", "s2", "s1"] })
        (some { cid := 1, name := "y", synonyms := ["s2", "s3"] })
    ∧ "s3" ∈ (merge_data_sources "x"
        (some { name := "x", synonyms := ["s1", "s2", "s1"] })
        (some { cid := 1, name := "y", synonyms := ["s2", "s3"] })).synonyms := by
  constructor
  · exact (merge_pure_deterministic "x"
      (some { name := "x", synonyms := ["s1", "s2", "s1"] })
      (some { cid := 1, name := "y", synonyms := ["s2", "s3"] })).1 _ _ rfl rfl
  · exact (merge_pure_deterministic "x"
      (some { name := "x", synonyms := ["s1", "s2", "s1"] })
      (some { cid := 1, name := "y", synonyms := ["s2", "s3"] })).2.2.2.2
      (by decide) "s3" (by decide)

/-- C8: the merged CAS number is the fragrance-source CAS when that is
present (non-`None`, non-empty), else the chemical-source CAS when
present, else unset; with the spec's concrete instances. -/
theorem merge_cas_priority :
    (∀ (name : String) (tp : IngredientProfile) (pc : Option PubChemData) (c : String),
        tp.cas = some c → c ≠ "" →
        (merge_data_sources name (some tp) pc).cas = some c)
    ∧ (∀ (name : String) (t : Option IngredientProfile) (pp : PubChemData) (c : String),
        optTruthy (t.bind IngredientProfile.cas) = false →
        pp.cas = some c → c ≠ "" →
        (merge_data_sources name t (some pp)).cas = some c)
    ∧ (∀ (name : String) (t : Option IngredientProfile) (p : Option PubChemData),
        optTruthy (t.bind IngredientProfile.cas) = false →
        optTruthy (p.bind PubChemData.cas) = false →
        (merge_data_sources name t p).cas = Option.none)
    ∧ (merge_data_sources "x" (some { name := "x", cas := some "8000-00-0" })
        (some { cid := 1, name := "y", cas := some "9999-99-9" })).cas
      = some "8000-00-0"
    ∧ (merge_data_sources "x" Option.none
        (some { cid := 1, name := "y", cas := some "9999-99-9" })).cas
      = some "9999-99-9" := by
  refine ⟨?_, ?_, ?_, rfl, rfl⟩
  · intro name tp pc c hc hne
    rw [merge_cas_eq]
    simp [firstTruthy, hc, optTruthy, hne]
  · intro name t pp c htn hc hne
    rw [merge_cas_eq]
    unfold firstTruthy
    rw [htn]
    simp [hc, optTruthy, hne]
  · intro name t p htn hpn
    rw [merge_cas_eq]
    simp [firstTruthy, htn, hpn]

/-- Witness for `merge_cas_priority`: its hypothesis-bearing conjuncts
applied at concrete profiles. -/
theorem merge_cas_priority_witness :
    (merge_data_sources "z" (some { name := "z", cas := some "8000-00-0" })
        Option.none).cas = some "8000-00-0"
    ∧ (merge_data_sources "z" Option.none
        (some { cid := 2, name := "w", cas := some "9999-99-9" })).cas
      = some "9999-99-9" :=
  ⟨merge_cas_priority.1 "z" { name := "z", cas := some "8000-00-0" }
      Option.none "8000-00-0" rfl (by decide),
   merge_cas_priority.2.1 "z" Option.none
      { cid := 2, name := "w", cas := some "9999-99-9" } "9999-99-9"
      (by decide) rfl (by decide)⟩

/-- C7: the search variants for "Bergamot Essential Oil": first entry
"bergamot oil", at most 5 entries, pairwise distinct
case-insensitively, in first-seen order (the explicit list). -/
theorem bergamot_variants :
    get_search_variants "Bergamot Essential Oil"
      = ["bergamot oil", "Bergamot Essential Oil", "citrus bergamia"]
    ∧ (get_search_variants "Bergamot Essential Oil").head? = some "bergamot oil"
    ∧ (get_search_variants "Bergamot Essential Oil").length ≤ 5
    ∧ ((get_search_variants "Bergamot Essential Oil").map pyLower).Nodup := by
  have h : get_search_variants "Bergamot Essential Oil"
      = ["bergamot oil", "Bergamot Essential Oil", "citrus bergamia"] := by decide
  refine ⟨h, ?_, ?_, ?_⟩ <;> rw [h] <;> decide

/-- C6 counterexample: the claim requires `normalize` to lowercase,
trim and suffix-strip every input, so "Foo Oil" should map to "foo";
but the source returns the original `name.strip()` whenever no alias
matches — "Foo Oil" stays "Foo Oil", unlowercased, suffix kept. -/
theorem normalize_counterexample :
    normalize_ingredient_name "Foo Oil" = "Foo Oil"
    ∧ normalize_ingredient_name "Foo Oil" ≠ "foo" := by
  constructor <;> decide

/-- C6 amended: normalisation lowercases and trims a copy for
matching; when the first matching suffix leaves a base that is an
alias-group key, the group's preferred name is returned; otherwise,
when the full lowercased name matches a group (as key or alias,
case-insensitively), the group's preferred name is returned; otherwise
the ORIGINAL name is returned merely trimmed — not lowercased and with
the suffix kept. -/
theorem normalize_char :
    (∀ name suf aliases,
        suffixesToRemove.find? (fun s => pyEndsWith (pyLower (pyStrip name)) s)
          = some suf →
        aliasEntryFor (pyStrip (pyDropRight (pyLower (pyStrip name)) suf.length))
          = some aliases →
        normalize_ingredient_name name = aliases.headD "")
    ∧ (∀ name suf aliases,
        suffixesToRemove.find? (fun s => pyEndsWith (pyLower (pyStrip name)) s)
          = some suf →
        aliasEntryFor (pyStrip (pyDropRight (pyLower (pyStrip name)) suf.length))
          = Option.none →
        aliasScanFind (pyLower (pyStrip name)) = some aliases →
        normalize_ingredient_name name = aliases.headD "")
    ∧ (∀ name aliases,
        suffixesToRemove.find? (fun s => pyEndsWith (pyLower (pyStrip name)) s)
          = Option.none →
        aliasScanFind (pyLower (pyStrip name)) = some aliases →
        normalize_ingredient_name name = aliases.headD "")
    ∧ (∀ name suf,
        suffixesToRemove.find? (fun s => pyEndsWith (pyLower (pyStrip name)) s)
          = some suf →
        aliasEntryFor (pyStrip (pyDropRight (pyLower (pyStrip name)) suf.length))
          = Option.none →
        aliasScanFind (pyLower (pyStrip name)) = Option.none →
        normalize_ingredient_name name = pyStrip name)
    ∧ (∀ name,
        suffixesToRemove.find? (fun s => pyEndsWith (pyLower (pyStrip name)) s)
          = Option.none →
        aliasScanFind (pyLower (pyStrip name)) = Option.none →
        normalize_ingredient_name name = pyStrip name) := by
  refine ⟨?_, ?_, ?_, ?_, ?_⟩
  · intro name suf aliases hfind halias
    simp only [normalize_ingredient_name, hfind, halias]
  · intro name suf aliases hfind halias hscan
    simp only [normalize_ingredient_name, hfind, halias, hscan]
  · intro name aliases hfind hscan
    simp only [normalize_ingredient_name, hfind, hscan]
  · intro name suf hfind halias hscan
    simp only [normalize_ingredient_name, hfind, halias, hscan]
  · intro name hfind hscan
    simp only [normalize_ingredient_name, hfind, hscan]

/-- Witness for `normalize_char`: the alias-substitution branch at
"Bergamot Essential Oil" and the trim-only branch at "Foo Oil". -/
theorem normalize_char_witness :
    normalize_ingredient_name "Bergamot Essential Oil" = "bergamot oil"
    ∧ normalize_ingredient_name "Foo Oil" = pyStrip "Foo Oil" :=
  ⟨normalize_char.1 "Bergamot Essential Oil" " essential oil"
      ["bergamot oil", "bergamot essential oil", "citrus bergamia"]
      (by decide) (by decide),
   normalize_char.2.2.2.1 "Foo Oil" " oil" (by decide) (by decide) (by decide)⟩

/-- C5 counterexample: "5P" contains "P", so the claim requires 0.0;
but the source tests `startswith("P")` (or containment of "PROHIBIT"),
so "5P" falls through to float parsing, fails, and defaults to
100.0. -/
theorem parse_percentage_counterexample :
    _parse_percentage "5P" = 100 ∧ (100 : ℚ) ≠ 0 := by
  constructor <;> decide

/-- C5 amended: blank/"-"/"N/A"/"NR" parse to 100.0; a value whose
trimmed upper-cased form STARTS WITH "P" or contains "PROHIBIT" parses
to 0.0 (mere containment of "P" does not suffice); otherwise every "%"
is removed, the remainder trimmed and parsed as a float, defaulting to
100.0 when unparseable; with the spec's concrete examples. -/
theorem parse_percentage_char :
    (∀ v, (v = "" ∨ pyStrip v ∈ ["-", "N/A", "NR", ""]) → _parse_percentage v = 100)
    ∧ (∀ v, ¬(v = "" ∨ pyStrip v ∈ ["-", "N/A", "NR", ""]) →
        (pyStartsWith (pyUpper (pyStrip v)) "P"
          ∨ strContains (pyUpper (pyStrip v)) "PROHIBIT") →
        _parse_percentage v = 0)
    ∧ (∀ v q, ¬(v = "" ∨ pyStrip v ∈ ["-", "N/A", "NR", ""]) →
        ¬(pyStartsWith (pyUpper (pyStrip v)) "P"
          ∨ strContains (pyUpper (pyStrip v)) "PROHIBIT") →
        parsePyFloat (pyStrip (pyRemoveAll (pyUpper (pyStrip v)) (Char.ofNat 37)))
          = some q →
        _parse_percentage v = q)
    ∧ (∀ v, ¬(v = "" ∨ pyStrip v ∈ ["-", "N/A", "NR", ""]) →
        ¬(pyStartsWith (pyUpper (pyStrip v)) "P"
          ∨ strContains (pyUpper (pyStrip v)) "PROHIBIT") →
        parsePyFloat (pyStrip (pyRemoveAll (pyUpper (pyStrip v)) (Char.ofNat 37)))
          = Option.none →
        _parse_percentage v = 100)
    ∧ _parse_percentage "0.5%" = 1/2
    ∧ _parse_percentage "-" = 100
    ∧ _parse_percentage "P" = 0
    ∧ _parse_percentage "" = 100
    ∧ _parse_percentage "NR" = 100
    ∧ _parse_percentage "12" = 12 := by
  have half : _parse_percentage "0.5%" = 1/2 := by
    have h : _parse_percentage "0.5%" = mkRat 1 2 := by decide
    rw [h, Rat.mkRat_eq_div]
    norm_num
  refine ⟨?_, ?_, ?_, ?_, half, by decide, by decide, by decide, by decide, by decide⟩
  · intro v h
    unfold _parse_percentage
    rw [if_pos h]
  · intro v h hp
    simp only [_parse_percentage]
    rw [if_neg h, if_pos hp]
  · intro v q h hp hq
    simp only [_parse_percentage]
    rw [if_neg h, if_neg hp, hq]
  · intro v h hp hn
    simp only [_parse_percentage]
    rw [if_neg h, if_neg hp, hn]

/-- Witness for `parse_percentage_char`: each hypothesis-bearing
conjunct applied at a concrete cell value. -/
theorem parse_percentage_char_witness :
    _parse_percentage "N/A" = 100
    ∧ _parse_percentage "xPROHIBITy" = 0
    ∧ _parse_percentage " 0.25 % " = mkRat 1 4
    ∧ _parse_percentage "abc" = 100 :=
  ⟨parse_percentage_char.1 "N/A" (by decide),
   parse_percentage_char.2.1 "xPROHIBITy" (by decide) (by decide),
   parse_percentage_char.2.2.1 " 0.25 % " (mkRat 1 4) (by decide) (by decide) (by decide),
   parse_percentage_char.2.2.2.1 "abc" (by decide) (by decide) (by decide)⟩

/-- C3 counterexample: enriching "Lavender" against a store whose
record already holds every merged field with a non-empty, non-sentinel
value writes nothing — the update loop returns an empty written list
and the store is unchanged — yet the result reports
`updated_fields = ["name", "cas", "profile", "tenacity"]`: the full
merged key set, not the set of fields actually written. -/
theorem updated_fields_counterexample :
    (enrich_ingredient "Lavender" "o" true lavOracleEx lavDBEx).1.updated_fields
      = ["name", "cas", "profile", "tenacity"]
    ∧ (enrich_ingredient "Lavender" "o" true lavOracleEx lavDBEx).2 = lavDBEx
    ∧ (updateFields lavRecordEx
        (merge_data_sources "Lavender" (some lavProfileEx) Option.none).to_dict true).2
      = [] := by
  refine ⟨?_, ?_, ?_⟩ <;> decide

/-- C3 amended: `upsert_ingredient` returns only
`(record, was_created)` — not the written-field list — and the
enrichment result's `updated_fields` is the full key list of the
merged record's dict (the fields attempted), regardless of which
fields the upsert actually wrote. -/
theorem updated_fields_reports_merged_keys (name owner : String) (fill : Bool)
    (scraper : ScraperOracle) (db : DB) (t : Option IngredientProfile)
    (p : Option PubChemData) (r : StoredRecord) (wc : Bool) (db1 : DB)
    (ht : searchLoop scraper.search_tgsc (get_search_variants name) = Except.ok t)
    (hp : searchLoop scraper.search_pubchem (get_search_variants name) = Except.ok p)
    (hfound : ¬(t.isNone = true ∧ p.isNone = true))
    (hup : upsert_ingredient (merge_data_sources name t p).to_dict fill owner db
      = Except.ok (r, wc, db1)) :
    (enrich_ingredient name owner fill scraper db).1.updated_fields
      = (merge_data_sources name t p).to_dict.map Prod.fst := by
  simp only [enrich_ingredient, ht, hp]
  rw [if_neg hfound]
  simp only [hup]

/-- Witness for `updated_fields_reports_merged_keys` at the concrete
Lavender environment. -/
theorem updated_fields_reports_merged_keys_witness :
    (enrich_ingredient "Lavender" "o" true lavOracleEx lavDBEx).1.updated_fields
      = (merge_data_sources "Lavender" (some lavProfileEx)
          Option.none).to_dict.map Prod.fst :=
  updated_fields_reports_merged_keys "Lavender" "o" true lavOracleEx lavDBEx
    (some lavProfileEx) Option.none lavRecordEx false lavDBEx
    rfl rfl (by decide) rfl

/-- The search loop returns "no data" when the oracle returns no data
for every variant. -/
theorem searchLoop_all_none {α : Type} (oracle : String → Except String (Option α))
    (l : List String) (h : ∀ v ∈ l, oracle v = Except.ok Option.none) :
    searchLoop oracle l = Except.ok Option.none := by
  induction l with
  | nil => rfl
  | cons v rest ih =>
    have hv := h v (List.mem_cons_self _ _)
    simp only [searchLoop, hv]
    exact ih (fun w hw => h w (List.mem_cons_of_mem _ hw))

/-- C9: when both sources return no data for every search variant, the
enrichment returns a not-found failure — `success` is `False` and the
`error_message` is set — and no stored record is created or modified
(the store is returned untouched). -/
theorem both_sources_empty_not_found (name owner : String) (fill : Bool)
    (scraper : ScraperOracle) (db : DB)
    (ht : ∀ v ∈ get_search_variants name, scraper.search_tgsc v = Except.ok Option.none)
    (hp : ∀ v ∈ get_search_variants name,
      scraper.search_pubchem v = Except.ok Option.none) :
    (enrich_ingredient name owner fill scraper db).1.success = false
    ∧ (enrich_ingredient name owner fill scraper db).1.error_message
      = some ("No data found for " ++ sQuote ++ name ++ sQuote ++ " in any source")
    ∧ (enrich_ingredient name owner fill scraper db).2 = db := by
  have h1 := searchLoop_all_none scraper.search_tgsc _ ht
  have h2 := searchLoop_all_none scraper.search_pubchem _ hp
  simp only [enrich_ingredient, h1, h2]
  rw [if_pos ⟨rfl, rfl⟩]
  exact ⟨rfl, rfl, rfl⟩

/-- Witness for `both_sources_empty_not_found` at a nonsensical name,
an all-empty oracle and the empty store. -/
theorem both_sources_empty_not_found_witness :
    (enrich_ingredient "zzz" "o" true noneOracleEx dbEmptyEx).1.success = false
    ∧ (enrich_ingredient "zzz" "o" true noneOracleEx dbEmptyEx).2 = dbEmptyEx := by
  have h := both_sources_empty_not_found "zzz" "o" true noneOracleEx dbEmptyEx
    (fun v _ => rfl) (fun v _ => rfl)
  exact ⟨h.1, h.2.2⟩

/-- C10 counterexample: an internal failure whose exception text is
empty (Python `str(Exception())` is `""`) is caught and recorded
verbatim: the result's `error_message` is the empty string — set, but
not non-empty as the claim requires. -/
theorem enrich_empty_error_message_counterexample :
    (enrich_ingredient "Lavender" "o" true emptyRaiseOracleEx dbEmptyEx).1.success
      = false
    ∧ (enrich_ingredient "Lavender" "o" true emptyRaiseOracleEx
        dbEmptyEx).1.error_message = some ""
    ∧ ("" : String).length = 0 :=
  ⟨rfl, rfl, rfl⟩

/-- C10 amended: `enrich_ingredient` is total at its interface — in
the model a function into `EnrichmentResult`, mirroring the
`try/except Exception` that converts anything raised by lookups,
merging or persistence into a result; on every failing path
`error_message` is set (not `None`), and a raising lookup is caught
with `error_message = str(e)` — which is empty exactly when the
exception's text is empty, so it is non-empty only in that case. -/
theorem enrich_total_error_reporting (name owner : String) (fill : Bool)
    (scraper : ScraperOracle) (db : DB) :
    ((enrich_ingredient name owner fill scraper db).1.success = false →
      (enrich_ingredient name owner fill scraper db).1.error_message ≠ Option.none)
    ∧ (∀ e, searchLoop scraper.search_tgsc (get_search_variants name)
        = Except.error e →
        (enrich_ingredient name owner fill scraper db).1.success = false
        ∧ (enrich_ingredient name owner fill scraper db).1.error_message = some e) := by
  constructor
  · rcases hT : searchLoop scraper.search_tgsc (get_search_variants name) with eT | t
    · simp [enrich_ingredient, hT]
    · rcases hP : searchLoop scraper.search_pubchem (get_search_variants name)
        with eP | p
      · simp [enrich_ingredient, hT, hP]
      · by_cases hN : t.isNone = true ∧ p.isNone = true
        · simp [enrich_ingredient, hT, hP, hN]
        · have hN2 : ¬(t = Option.none ∧ p = Option.none) := by simpa using hN
          rcases hU : upsert_ingredient (merge_data_sources name t p).to_dict
            fill owner db with eU | triple
          · simp [enrich_ingredient, hT, hP, hN2, hU]
          · obtain ⟨r, wc, db1⟩ := triple
            simp [enrich_ingredient, hT, hP, hN2, hU]
  · intro e he
    simp [enrich_ingredient, he]

/-- Witness for `enrich_total_error_reporting`: a lookup raising with
text "boom" is caught; the result fails with that message, which is
then not `None`. -/
theorem enrich_total_error_reporting_witness :
    (enrich_ingredient "Lavender" "o" true raiseOracleEx dbEmptyEx).1.success = false
    ∧ (enrich_ingredient "Lavender" "o" true raiseOracleEx dbEmptyEx).1.error_message
      = some "boom"
    ∧ (enrich_ingredient "Lavender" "o" true raiseOracleEx dbEmptyEx).1.error_message
      ≠ Option.none := by
  have h := enrich_total_error_reporting "Lavender" "o" true raiseOracleEx dbEmptyEx
  have h2 := h.2 "boom" rfl
  exact ⟨h2.1, h2.2, h.1 h2.1⟩
